import Mathlib

/-!
Shallow embedding of the `ovr` menu-parsing core (`src/week.rs`, `src/day.rs`).

Texts are modelled as `List Char` (matching Rust `char`-level string
operations); pixel coordinates are `Nat` (the source uses `u32`; all
subtractions that could underflow are noted and treated explicitly);
calendar arithmetic is over `Int`.
-/

namespace Ovr

abbrev Str := List Char

/-- Whitespace as used by Rust `str::trim` / `trim_start`, restricted to the
characters that can occur in the extracted text. -/
def isRustWs (c : Char) : Bool :=
  c == ' ' || c == '\t' || c == '\n' || c == '\r'

def trimStartStr (s : Str) : Str := s.dropWhile isRustWs

def trimEndStr (s : Str) : Str := (s.reverse.dropWhile isRustWs).reverse

/-- Rust `str::trim`. -/
def trimStr (s : Str) : Str := trimEndStr (trimStartStr s)

/-- Rust `self.text.ends_with(' ')`. -/
def endsWithSpace (s : Str) : Bool := s.getLast? == some ' '

/-- Rust `text.starts_with(' ')`. -/
def startsWithSpace (s : Str) : Bool := s.head? == some ' '

/-- Rust `text.ends_with("  ")`. -/
def endsWithTwoSpaces (s : Str) : Bool :=
  match s.reverse with
  | c1 :: c2 :: _ => c1 == ' ' && c2 == ' '
  | _ => false

/-- Rust `text.trim_end_matches(' ')`. -/
def trimEndSpaces (s : Str) : Str := (s.reverse.dropWhile (· == ' ')).reverse

/-- The `while text.ends_with("  ") { text = text.trim_end_matches(' ') }`
loop of `DishBuilder::absorb_text`: one iteration already removes every
trailing space, so the loop runs at most once. -/
def stripTrailingDoubleSpaces (s : Str) : Str :=
  if endsWithTwoSpaces s then trimEndSpaces s else s

/-- `DishBuilder::absorb_text` (`src/week.rs:210-219`). -/
def absorbText (selfText text : Str) : Str :=
  if endsWithSpace selfText then selfText ++ trimStartStr text
  else selfText ++ stripTrailingDoubleSpaces text

def frenchLowerChars : List Char :=
  ['à', 'â', 'ä', 'ç', 'é', 'è', 'ê', 'ë', 'î', 'ï', 'ô', 'ö', 'ù', 'û', 'ü', 'œ']

def frenchUpperChars : List Char :=
  ['À', 'Â', 'Ä', 'Ç', 'É', 'È', 'Ê', 'Ë', 'Î', 'Ï', 'Ô', 'Ö', 'Ù', 'Û', 'Ü', 'Œ']

/-- Rust `char::is_lowercase`, on the alphabet occurring in these menus. -/
def rustIsLowercase (c : Char) : Bool := c.isLower || frenchLowerChars.contains c

/-- Rust `char::is_alphabetic`, on the alphabet occurring in these menus. -/
def rustIsAlphabetic (c : Char) : Bool :=
  c.isAlpha || frenchLowerChars.contains c || frenchUpperChars.contains c

/-- Rust `char` lowering as performed by `str::to_lowercase`, on the alphabet
occurring in these menus. -/
def rustToLower (c : Char) : Char :=
  if c.isUpper then c.toLower
  else if c == 'À' then 'à' else if c == 'Â' then 'â' else if c == 'Ä' then 'ä'
  else if c == 'Ç' then 'ç' else if c == 'É' then 'é' else if c == 'È' then 'è'
  else if c == 'Ê' then 'ê' else if c == 'Ë' then 'ë' else if c == 'Î' then 'î'
  else if c == 'Ï' then 'ï' else if c == 'Ô' then 'ô' else if c == 'Ö' then 'ö'
  else if c == 'Ù' then 'ù' else if c == 'Û' then 'û' else if c == 'Ü' then 'ü'
  else c

/-- Rust `str::to_lowercase`. -/
def toLowercaseStr (s : Str) : Str := s.map rustToLower

/-- Rust `u32::abs_diff`. -/
def absDiff (a b : Nat) : Nat := if a ≤ b then b - a else a - b

/-! ## Data model of `src/week.rs` -/

/-- A half-open `Range<u32>` (`lo..hi`). -/
structure RangeN where
  lo : Nat
  hi : Nat
deriving DecidableEq, Repr

def RangeN.containsN (r : RangeN) (t : Nat) : Bool := r.lo ≤ t && t < r.hi

structure DocumentDimensions where
  width : Nat
  height : Nat
deriving DecidableEq, Repr

/-- `MAIN_CONTENT_AREA: Range<u32> = 120..525`. -/
def MAIN_CONTENT_AREA : RangeN := ⟨120, 525⟩

def bands792x612 : List RangeN := [⟨136, 166⟩, ⟨196, 226⟩, ⟨296, 326⟩, ⟨376, 406⟩, ⟨416, 446⟩]

def bands841x595 : List RangeN := [⟨139, 169⟩, ⟨197, 227⟩, ⟨293, 323⟩, ⟨370, 400⟩, ⟨408, 438⟩]

def CATEGORIES_AREAS : List (DocumentDimensions × List RangeN) :=
  [(⟨792, 612⟩, bands792x612), (⟨841, 595⟩, bands841x595)]

/-- `DocumentDimensions::categories_area` (`src/week.rs:178-183`): look up the
exact geometry, falling back to the first registered profile. -/
def categoriesArea (dims : DocumentDimensions) : List RangeN :=
  match CATEGORIES_AREAS.find? (fun p => decide (p.1 = dims)) with
  | some p => p.2
  | none => (CATEGORIES_AREAS.headD (⟨0, 0⟩, [])).2

def EXPECTED_CHAR_WIDTH : Nat := 4

def COLUMN_ALLOWED_DRIFT : Nat := 30

def MULTILINE_DISH_MAX_DISTANCE : Nat := 15

/-- A raw extracted fragment: numeric `top`/`left` plus its text, with `red`
abstracting `style.contains("color: red")`. -/
structure RawDiv where
  top : Nat
  left : Nat
  text : Str
  red : Bool
deriving DecidableEq, Repr

/-- `struct Div` (`src/week.rs:186-191`). -/
structure Div where
  top : Nat
  left : Nat
  text : Str
deriving DecidableEq, Repr

/-- `struct DishBuilder` (`src/week.rs:193-199`); `end_` stands for the
source's `end` field, a Lean keyword. -/
structure DishBuilder where
  top : Nat
  start : Nat
  end_ : Nat
  text : Str
deriving DecidableEq, Repr

/-- `DishBuilder::center` (`src/week.rs:202-204`). -/
def DishBuilder.center (s : DishBuilder) : Nat := s.start + (s.end_ - s.start) / 2

/-- `DishBuilder::trim` (`src/week.rs:206-208`). -/
def trimDB (s : DishBuilder) : DishBuilder := { s with text := trimStr s.text }

/-- `impl From<Div> for DishBuilder` (`src/week.rs:222-232`). -/
def fromDiv (v : Div) : DishBuilder :=
  let text := trimStartStr v.text
  { top := v.top, start := v.left,
    end_ := v.left + text.length * EXPECTED_CHAR_WIDTH, text := text }

/-- `impl AddAssign<Div> for DishBuilder` (`src/week.rs:234-239`). -/
def addDiv (s : DishBuilder) (rhs : Div) : DishBuilder :=
  { s with text := absorbText s.text rhs.text,
           end_ := rhs.left + rhs.text.length * EXPECTED_CHAR_WIDTH }

/-- `impl AddAssign<Self> for DishBuilder` (`src/week.rs:242-251`), used for
multiline merges only. -/
def addSelf (s rhs : DishBuilder) : DishBuilder :=
  let t := if !endsWithSpace s.text && !startsWithSpace rhs.text
           then s.text ++ [' '] else s.text
  { top := s.top, start := min s.start rhs.start, end_ := max s.end_ rhs.end_,
    text := absorbText t rhs.text }

/-! ## Stage 1: fragment filter and sort (`src/week.rs:54-75`) -/

/-- The keep-condition of the `filter_map` over extracted fragments: not red,
inside the main content band, outside every category band. -/
def keepFragment (dims : DocumentDimensions) (f : RawDiv) : Bool :=
  !f.red && MAIN_CONTENT_AREA.containsN f.top
    && !((categoriesArea dims).any (fun r => r.containsN f.top))

def toDiv (f : RawDiv) : Div := ⟨f.top, f.left, f.text⟩

/-- The sort key order of `divs.sort_by_key(|d| (d.top, d.left))`:
lexicographic on `(top, left)`. -/
def divLe (a b : Div) : Prop := a.top < b.top ∨ (a.top = b.top ∧ a.left ≤ b.left)

instance : DecidableRel divLe := fun a b =>
  inferInstanceAs (Decidable (a.top < b.top ∨ (a.top = b.top ∧ a.left ≤ b.left)))

instance : IsTotal Div divLe := ⟨by intro a b; unfold divLe; omega⟩

instance : IsTrans Div divLe := ⟨by intro a b c; unfold divLe; omega⟩

def sortDivs (l : List Div) : List Div := l.insertionSort divLe

/-- Fragment filtering plus the `(top, left)` sort. -/
def fragmentStage (dims : DocumentDimensions) (frags : List RawDiv) : List Div :=
  sortDivs ((frags.filter (keepFragment dims)).map toDiv)

/-! ## Stage 2: word merge (`src/week.rs:77-93`) -/

/-- The word-merge loop, with the mutable `words.last_mut()` of the source
modelled as the explicit current run `cur`; previous runs are trimmed exactly
when the next run starts, and the final run is trimmed at the end. -/
def mergeGo (cur : DishBuilder) : List Div → List DishBuilder
  | [] => [trimDB cur]
  | d :: ds =>
    if cur.top == d.top && absDiff cur.end_ d.left < 12
    then mergeGo (addDiv cur d) ds
    else trimDB cur :: mergeGo (fromDiv d) ds

def wordMerge : List Div → List DishBuilder
  | [] => []
  | d :: ds => mergeGo (fromDiv d) ds

/-! ## Stage 3: repeated-line removal (`src/week.rs:95-110`) -/

/-- The lower-cased texts of the runs sharing top `t` (the group of `t` in
`words.iter().map(|w| (w.top, w.text.to_lowercase())).into_group_map()`). -/
def rowTexts (words : List DishBuilder) (t : Nat) : List Str :=
  (words.filter (fun w => w.top == t)).map (fun w => toLowercaseStr w.text)

/-- Whether top `t` belongs to `lines_to_clear`: some lower-cased text occurs
at least `max (rowSize - 1) 2` times in the row. -/
def lineTriggers (words : List DishBuilder) (t : Nat) : Bool :=
  let ds := rowTexts words t
  ds.any (fun d => decide (max (ds.length - 1) 2 ≤ ds.count d))

def removeNoise (words : List DishBuilder) : List DishBuilder :=
  words.filter (fun w => !lineTriggers words w.top)

/-! ## Stage 4: column clustering (`src/week.rs:112-131`) -/

/-- The column-search predicate: any member's center within
`COLUMN_ALLOWED_DRIFT` of the candidate's center. -/
def columnMatches (word : DishBuilder) (c : List DishBuilder) : Bool :=
  c.any (fun ow => absDiff ow.center word.center < COLUMN_ALLOWED_DRIFT)

/-- Insertion of a run into its matched column: multiline merge into the last
run when close enough vertically and starting with a lower-case letter, plain
push otherwise.  The source unwraps `column.last()` (columns are never empty)
and subtracts `word.top - last.top` on `u32`. -/
def columnAdd (c : List DishBuilder) (word : DishBuilder) : List DishBuilder :=
  match c.getLast? with
  | none => [word]
  | some last =>
    if word.top - last.top ≤ MULTILINE_DISH_MAX_DISTANCE
        && (word.text.head?.elim false rustIsLowercase)
    then c.dropLast ++ [addSelf last word]
    else c ++ [word]

/-- One step of the clustering loop: find the first matching column and add
the run to it, or start a new column. -/
def addToColumns (word : DishBuilder) : List (List DishBuilder) → List (List DishBuilder)
  | [] => [[word]]
  | c :: cs =>
    if columnMatches word c then columnAdd c word :: cs
    else c :: addToColumns word cs

def buildColumnsGo (cols : List (List DishBuilder)) : List DishBuilder → List (List DishBuilder)
  | [] => cols
  | w :: ws => buildColumnsGo (addToColumns w cols) ws

def buildColumns (words : List DishBuilder) : List (List DishBuilder) :=
  buildColumnsGo [] words

/-! ## Stage 4b: deduplication (`src/week.rs:132-138`) -/

/-- `itertools::unique_by`, keeping the first occurrence of each key, with the
set of already-seen keys carried explicitly. -/
def uniqueByGo {α β : Type} [BEq β] (f : α → β) (seen : List β) : List α → List α
  | [] => []
  | x :: xs =>
    if seen.contains (f x) then uniqueByGo f seen xs
    else x :: uniqueByGo f (f x :: seen) xs

def uniqueBy {α β : Type} [BEq β] (f : α → β) (l : List α) : List α :=
  uniqueByGo f [] l

def dedupColumn (c : List DishBuilder) : List DishBuilder :=
  uniqueBy (fun d => toLowercaseStr d.text) c

/-! ## Calendar model (the `time` crate as used by `src/day.rs`) -/

inductive Error where
  | InvalidPdf
  | InvalidJson
  | Internal
deriving DecidableEq, Repr

/-- A proleptic-Gregorian calendar date; weekdays are numbered from Monday
(`0`) to Sunday (`6`), as `time::Weekday::number_days_from_monday`. -/
structure Date where
  year : Int
  month : Nat
  day : Nat
deriving DecidableEq, Repr

def isLeapYear (y : Int) : Bool := y % 4 == 0 && (y % 100 != 0 || y % 400 == 0)

def daysInMonth (y : Int) (m : Nat) : Nat :=
  if m = 2 then (if isLeapYear y then 29 else 28)
  else if m = 4 ∨ m = 6 ∨ m = 9 ∨ m = 11 then 30
  else 31

/-- `time::Date::from_calendar_date`: valid month, valid day-of-month, year
within the crate's supported `-9999..=9999` range. -/
def fromCalendarDate (y : Int) (m d : Nat) : Option Date :=
  if 1 ≤ m ∧ m ≤ 12 ∧ 1 ≤ d ∧ d ≤ daysInMonth y m ∧ -9999 ≤ y ∧ y ≤ 9999
  then some ⟨y, m, d⟩ else none

/-- Days since 1970-01-01 of a Gregorian date (Hinnant's civil-days formula,
written with floor division, which is what `/` on `Int` is in Lean). -/
def daysFromCivil (y : Int) (m d : Nat) : Int :=
  let y1 : Int := if m ≤ 2 then y - 1 else y
  let era : Int := y1 / 400
  let yoe : Int := y1 - era * 400
  let mp : Nat := if 2 < m then m - 3 else m + 9
  let doy : Int := ((153 * mp + 2) / 5 + d - 1 : Nat)
  let doe : Int := yoe * 365 + yoe / 4 - yoe / 100 + doy
  era * 146097 + doe - 719468

def Date.toDays (dt : Date) : Int := daysFromCivil dt.year dt.month dt.day

/-- Weekday of a date, numbered `0` = Monday .. `6` = Sunday
(1970-01-01 was a Thursday, i.e. `3`). -/
def weekdayNum (dt : Date) : Nat := ((dt.toDays + 3) % 7).toNat

/-- Absolute distance in days between two dates, `(*date - now.date()).abs()`
compared as a `min_by_key` key. -/
def dateDistance (a b : Date) : Nat := (a.toDays - b.toDays).natAbs

/-! ## `Day::new` (`src/day.rs:18-56`) -/

/-- Rust `Iterator::min_by_key`: on ties the first minimal element wins. -/
def minByKeyFirst {α : Type} (key : α → Nat) : List α → Option α
  | [] => none
  | x :: xs => some (xs.foldl (fun acc y => if key y < key acc then y else acc) x)

/-- `str::splitn(n, sep)`: at most `n` pieces, the last piece keeping any
remaining separators. -/
def splitn : Nat → Char → Str → List Str
  | 0, _, _ => []
  | 1, _, s => [s]
  | n + 2, sep, s =>
    let pre := s.takeWhile (fun c => !(c == sep))
    match s.dropWhile (fun c => !(c == sep)) with
    | [] => [s]
    | _ :: post => pre :: splitn (n + 1) sep post

/-- `itertools::collect_tuple::<(_, _, _)>`: succeeds only on exactly three
elements. -/
def collectTuple3 {α : Type} : List α → Option (α × α × α)
  | [a, b, c] => some (a, b, c)
  | _ => none

def digitsToNat : Str → Nat → Option Nat
  | [], acc => some acc
  | c :: cs, acc => if c.isDigit then digitsToNat cs (acc * 10 + (c.toNat - 48)) else none

/-- Rust unsigned integer parsing: optional leading `+`, then at least one
digit. -/
def parseNatStr (s : Str) : Option Nat :=
  match s with
  | [] => none
  | '+' :: rest => if rest.isEmpty then none else digitsToNat rest 0
  | _ => digitsToNat s 0

/-- Rust `str::parse::<u8>`: fails on overflow. -/
def parseU8 (s : Str) : Option Nat :=
  match parseNatStr s with
  | some n => if n ≤ 255 then some n else none
  | none => none

/-- Rust `str::parse::<i16>`: optional sign, digits, range check. -/
def parseI16 (s : Str) : Option Int :=
  match s with
  | '-' :: rest =>
    match (if rest.isEmpty then none else digitsToNat rest 0) with
    | some n => if n ≤ 32768 then some (-(n : Int)) else none
    | none => none
  | _ =>
    match parseNatStr s with
    | some n => if n ≤ 32767 then some (n : Int) else none
    | none => none

/-- `parse_fr_weekday_str` (`src/day.rs:132-143`), returning the weekday
number from Monday. -/
def parseFrWeekdayStr (w : Str) : Option Nat :=
  let l := toLowercaseStr w
  if l = "lundi".data then some 0
  else if l = "mardi".data then some 1
  else if l = "mercredi".data then some 2
  else if l = "jeudi".data then some 3
  else if l = "vendredi".data then some 4
  else if l = "samedi".data then some 5
  else if l = "dimanche".data then some 6
  else none

/-- `parse_fr_month_str` (`src/day.rs:157-173`), returning the month number. -/
def parseFrMonthStr (m : Str) : Option Nat :=
  let l := toLowercaseStr m
  if l = "janvier".data then some 1
  else if l = "février".data ∨ l = "fevrier".data then some 2
  else if l = "mars".data then some 3
  else if l = "avril".data then some 4
  else if l = "mai".data then some 5
  else if l = "juin".data then some 6
  else if l = "juillet".data then some 7
  else if l = "août".data ∨ l = "aout".data then some 8
  else if l = "septembre".data then some 9
  else if l = "octobre".data then some 10
  else if l = "novembre".data then some 11
  else if l = "décembre".data then some 12
  else none

/-- The year candidates `now.year()-1 ..= now.year()+1` each kept only when
the calendar date exists and falls on the parsed weekday. -/
def candidateDates (now : Date) (wd day month : Nat) : List Date :=
  [now.year - 1, now.year, now.year + 1].filterMap (fun y =>
    match fromCalendarDate y month day with
    | some dt => if weekdayNum dt == wd then some dt else none
    | none => none)

/-- The worded-header year disambiguation of `Day::new`: nearest surviving
candidate to now. -/
def resolveWordedDate (now : Date) (wd day month : Nat) : Option Date :=
  minByKeyFirst (fun dt => dateDistance dt now) (candidateDates now wd day month)

structure DayR where
  date : Date
  dishes : List Str
deriving DecidableEq, Repr

/-- `Day::new` (`src/day.rs:18-56`), with the impure `now_utc()` passed in as
`now`. -/
def dayNew (now : Date) (fields : List Str) : Except Error (Option DayR) :=
  match fields with
  | [] => .error .InvalidPdf
  | [_] => .ok none
  | f0 :: rest =>
    if f0.any rustIsAlphabetic then
      match collectTuple3 (splitn 3 ' ' f0) with
      | none => .error .InvalidPdf
      | some (w, d, m) =>
        match parseFrWeekdayStr w with
        | none => .error .InvalidPdf
        | some wd =>
          match parseU8 d with
          | none => .error .InvalidPdf
          | some day =>
            match parseFrMonthStr m with
            | none => .error .InvalidPdf
            | some month =>
              match resolveWordedDate now wd day month with
              | none => .error .InvalidPdf
              | some dt => .ok (some ⟨dt, rest⟩)
    else
      match (splitn 3 '-' f0).filterMap parseI16 with
      | [y, m, d] =>
        -- `month as u8` / `day as u8` truncate to the low byte.
        if 1 ≤ (m % 256).toNat ∧ (m % 256).toNat ≤ 12 then
          match fromCalendarDate y ((m % 256).toNat) ((d % 256).toNat) with
          | some dt => .ok (some ⟨dt, rest⟩)
          | none => .error .InvalidPdf
        else .error .InvalidPdf
      | _ => .error .InvalidPdf

/-! ## Pipeline tail (`src/week.rs:139-149`) -/

/-- `columns.into_iter().filter_map(|c| Day::new(..).transpose()).collect::<Result<Vec<_>, _>>()`:
the first error aborts, `Ok(None)` columns are skipped. -/
def collectDays (now : Date) : List (List Str) → Except Error (List DayR)
  | [] => .ok []
  | c :: cs =>
    match dayNew now c with
    | .error e => .error e
    | .ok none => collectDays now cs
    | .ok (some d) =>
      match collectDays now cs with
      | .error e => .error e
      | .ok ds => .ok (d :: ds)

/-- `parse_pdf` (`src/week.rs:41-150`) from the point where positioned
fragments are available (the PDF/HTML extraction feeding it is outside the
core being modelled; `now` makes `Day::new`'s clock explicit). -/
def parsePdf (now : Date) (dims : DocumentDimensions) (frags : List RawDiv) :
    Except Error (List DayR) :=
  let divs := fragmentStage dims frags
  let words := removeNoise (wordMerge divs)
  let columns := (buildColumns words).map dedupColumn
  let columns := columns.filter (fun c => 2 ≤ c.length)
  if columns.isEmpty then .error .InvalidPdf
  else collectDays now (columns.map (fun c => c.map (fun tg => tg.text)))

/-! ## Checked clustering (for the no-underflow claim) -/

/-- `columnAdd` with the two partial operations of the source made explicit:
`column.last().unwrap()` (`none` on an empty column) and the `u32`
subtraction `word.top - last.top` (`none` on underflow). -/
def columnAddChecked (c : List DishBuilder) (word : DishBuilder) :
    Option (List DishBuilder) :=
  match c.getLast? with
  | none => none
  | some last =>
    if word.top < last.top then none
    else some (columnAdd c word)

def addToColumnsChecked (word : DishBuilder) :
    List (List DishBuilder) → Option (List (List DishBuilder))
  | [] => some [[word]]
  | c :: cs =>
    if columnMatches word c then (columnAddChecked c word).map (· :: cs)
    else (addToColumnsChecked word cs).map (c :: ·)

def buildColumnsCheckedGo (cols : List (List DishBuilder)) :
    List DishBuilder → Option (List (List DishBuilder))
  | [] => some cols
  | w :: ws =>
    match addToColumnsChecked w cols with
    | none => none
    | some cols2 => buildColumnsCheckedGo cols2 ws

def buildColumnsChecked (words : List DishBuilder) : Option (List (List DishBuilder)) :=
  buildColumnsCheckedGo [] words

/-! ## The deduplication pass restated from its specification

`dedupSpec` is the specification-side description of deduplication ("remove
runs whose lower-cased text duplicates an earlier run, first occurrence
wins, order preserved"), to be compared with the source-side `uniqueBy`. -/

def dedupSpec {α β : Type} [BEq β] (f : α → β) : List α → List α
  | [] => []
  | x :: xs => x :: dedupSpec f (xs.filter (fun y => !(f y == f x)))
termination_by l => l.length
decreasing_by
  simp only [List.length_cons]
  exact Nat.lt_succ_of_le (List.length_filter_le _ _)

/-! ## Concrete fixtures used by the claims' example inputs -/

def runA : DishBuilder := ⟨0, 10, 10, "A".data⟩

def runB : DishBuilder := ⟨100, 38, 38, "B".data⟩

def runC : DishBuilder := ⟨200, 300, 300, "C".data⟩

def runPoulet : DishBuilder := ⟨100, 40, 64, "Poulet".data⟩

def runBasquaise : DishBuilder := ⟨110, 40, 76, "basquaise".data⟩

def runRiz : DishBuilder := ⟨112, 40, 52, "Riz".data⟩

def runPouletBasquaise : DishBuilder := ⟨100, 40, 76, "Poulet basquaise".data⟩

def semaineRow : List DishBuilder :=
  [⟨7, 0, 0, "Semaine 12".data⟩, ⟨7, 50, 50, "Semaine 12".data⟩,
   ⟨7, 100, 100, "semaine 12".data⟩, ⟨7, 150, 150, "Semaine 12".data⟩,
   ⟨7, 200, 200, "Autre".data⟩, ⟨30, 0, 0, "Plat".data⟩]

def soupeFrags : List RawDiv :=
  [⟨170, 40, "2024-03-11".data, false⟩, ⟨230, 40, "Soupe".data, false⟩]

def soupeDay : DayR := ⟨⟨2024, 3, 11⟩, ["Soupe".data]⟩

def nowFix : Date := ⟨2024, 3, 10⟩

def dimsFix : DocumentDimensions := ⟨500, 500⟩

def badCols : List (List Str) := [["bad header x".data, "y".data]]

def goodCols : List (List Str) := [["2024-03-11".data, "Soupe".data]]

/-- Comparison of tops, for the monotonicity invariant of the clusterer. -/
def divTopLe (a b : Div) : Prop := a.top ≤ b.top

def dbTopLe (a b : DishBuilder) : Prop := a.top ≤ b.top

/-! # Theorems -/

lemma addToColumns_none (word : DishBuilder) (cols : List (List DishBuilder))
    (h : ∀ c ∈ cols, columnMatches word c = false) :
    addToColumns word cols = cols ++ [[word]] := by
  induction cols with
  | nil => rfl
  | cons c cs ih =>
    have hc : columnMatches word c = false := h c (List.mem_cons_self c cs)
    simp only [addToColumns, hc, Bool.false_eq_true, if_false, List.cons_append,
      List.cons.injEq, true_and]
    exact ih (fun c2 hc2 => h c2 (List.mem_cons_of_mem c hc2))

lemma addToColumns_found (word : DishBuilder) (c : List DishBuilder) :
    ∀ (pre post : List (List DishBuilder)),
    (∀ c2 ∈ pre, columnMatches word c2 = false) → columnMatches word c = true →
    addToColumns word (pre ++ c :: post) = pre ++ columnAdd c word :: post
  | [], post, _, hc => by simp [addToColumns, hc]
  | p :: ps, post, hpre, hc => by
    have hp : columnMatches word p = false := hpre p (List.mem_cons_self p ps)
    simp only [List.cons_append, addToColumns, hp, Bool.false_eq_true, if_false,
      List.cons.injEq, true_and]
    exact addToColumns_found word c ps post
      (fun c2 hc2 => hpre c2 (List.mem_cons_of_mem p hc2)) hc

/-- Claim C1: a run processed by the column clusterer joins an existing
column exactly when some column has a member whose center is within 30 px of
the run's center (the first such column, in order), and a new singleton
column is appended otherwise; the matching predicate is exactly
center-distance below `COLUMN_ALLOWED_DRIFT = 30`. -/
theorem claim_C1 (cols : List (List DishBuilder)) (word : DishBuilder) :
    ((∀ c ∈ cols, columnMatches word c = false) →
      addToColumns word cols = cols ++ [[word]])
    ∧ (∀ pre c post, cols = pre ++ c :: post →
        (∀ c2 ∈ pre, columnMatches word c2 = false) →
        columnMatches word c = true →
        addToColumns word cols = pre ++ columnAdd c word :: post)
    ∧ (∀ c : List DishBuilder, columnMatches word c = true ↔
        ∃ ow ∈ c, absDiff ow.center word.center < COLUMN_ALLOWED_DRIFT) := by
  refine ⟨addToColumns_none word cols, ?_, ?_⟩
  · intro pre c post hcols hpre hc
    subst hcols
    exact addToColumns_found word c pre post hpre hc
  · intro c
    simp [columnMatches, List.any_eq_true]

/-- Claim C1 witness: runs with centers 10 and 38 (within 30 px) land in the
same column, while a run with center 300 starts a new column. -/
theorem claim_C1_witness :
    addToColumns runB [[runA]] = [[runA, runB]]
    ∧ addToColumns runC [[runA, runB]] = [[runA, runB], [runC]]
    ∧ runA.center = 10 ∧ runB.center = 38 ∧ runC.center = 300 := by
  refine ⟨?_, ?_, by decide, by decide, by decide⟩
  · have h := (claim_C1 [[runA]] runB).2.1 [] [runA] [] rfl (by decide) (by decide)
    exact h.trans (by decide)
  · have h := (claim_C1 [[runA, runB]] runC).1 (by decide)
    exact h.trans (by decide)

lemma uniqueByGo_eq_dedupSpec {α β : Type} [BEq β] (f : α → β) :
    ∀ (l : List α) (seen : List β),
    uniqueByGo f seen l = dedupSpec f (l.filter (fun x => !(seen.contains (f x))))
  | [], _ => by simp [uniqueByGo, dedupSpec]
  | x :: xs, seen => by
    by_cases hc : seen.contains (f x)
    · have h1 : uniqueByGo f seen (x :: xs) = uniqueByGo f seen xs := by
        simp [uniqueByGo, hc]
      have h2 : (x :: xs).filter (fun y => !(seen.contains (f y)))
          = xs.filter (fun y => !(seen.contains (f y))) := by
        simp [List.filter_cons, hc]
      rw [h1, h2]
      exact uniqueByGo_eq_dedupSpec f xs seen
    · have h1 : uniqueByGo f seen (x :: xs) = x :: uniqueByGo f (f x :: seen) xs := by
        simp [uniqueByGo, hc]
      have h2 : (x :: xs).filter (fun y => !(seen.contains (f y)))
          = x :: xs.filter (fun y => !(seen.contains (f y))) := by
        simp [List.filter_cons, hc]
      rw [h1, h2]
      simp only [dedupSpec, List.cons.injEq, true_and]
      rw [uniqueByGo_eq_dedupSpec f xs (f x :: seen), List.filter_filter]
      congr 1
      apply List.filter_congr
      intro y _
      show (!(f x :: seen).contains (f y)) = (!(f y == f x) && !(seen.contains (f y)))
      simp only [List.contains_cons, Bool.not_or]

lemma dedupSpec_sublist {α β : Type} [BEq β] (f : α → β) :
    ∀ l : List α, List.Sublist (dedupSpec f l) l
  | [] => by simp [dedupSpec]
  | x :: xs => by
    rw [dedupSpec]
    exact List.Sublist.cons₂ x
      ((dedupSpec_sublist f _).trans (List.filter_sublist xs))
termination_by l => l.length
decreasing_by
  simp only [List.length_cons]
  exact Nat.lt_succ_of_le (List.length_filter_le _ _)

/-- Claim C8: within a column, deduplication keeps exactly the first
occurrence of each lower-cased text (removing every later run whose
lower-cased text equals an earlier one's), preserves the relative order of
kept runs, and keeps the first occurrence's casing: the source's seen-set
`unique_by` equals the first-occurrence description `dedupSpec`, the result
is a sublist of the column, and the column `["Eau", "eau"]` collapses to
`["Eau"]`. -/
theorem claim_C8 :
    (∀ c : List DishBuilder,
      dedupColumn c = dedupSpec (fun d => toLowercaseStr d.text) c)
    ∧ (∀ c : List DishBuilder, List.Sublist (dedupColumn c) c)
    ∧ dedupColumn [⟨0, 0, 12, "Eau".data⟩, ⟨10, 0, 12, "eau".data⟩]
        = [⟨0, 0, 12, "Eau".data⟩] := by
  have key : ∀ c : List DishBuilder,
      dedupColumn c = dedupSpec (fun d => toLowercaseStr d.text) c := by
    intro c
    unfold dedupColumn uniqueBy
    rw [uniqueByGo_eq_dedupSpec]
    congr 1
    simp [List.filter_eq_self]
  refine ⟨key, ?_, by decide⟩
  intro c
  rw [key c]
  exact dedupSpec_sublist _ c

/-- Claim C4: if some lower-cased text occurs at least
`max (row_size - 1) 2` times among the runs sharing a `top`, then every run
of that row is removed by the noise pass, not only the duplicated ones. -/
theorem claim_C4 (words : List DishBuilder) (t : Nat)
    (h : ∃ w ∈ words, w.top = t ∧
      max (((words.filter (fun v => v.top == t)).map
              (fun v => toLowercaseStr v.text)).length - 1) 2
        ≤ ((words.filter (fun v => v.top == t)).map
              (fun v => toLowercaseStr v.text)).count (toLowercaseStr w.text)) :
    ∀ v ∈ removeNoise words, v.top ≠ t := by
  obtain ⟨w, hw, ht, hcnt⟩ := h
  have htrig : lineTriggers words t = true := by
    unfold lineTriggers rowTexts
    rw [List.any_eq_true]
    refine ⟨toLowercaseStr w.text, ?_, by simpa using hcnt⟩
    exact List.mem_map_of_mem _ (List.mem_filter.mpr ⟨hw, by simp [ht]⟩)
  intro v hv hvt
  unfold removeNoise at hv
  have hfalse := (List.mem_filter.mp hv).2
  rw [hvt, htrig] at hfalse
  exact absurd hfalse (by decide)

/-- Claim C4 witness: a 5-run row in which 4 runs share the text
"Semaine 12" (up to case) is removed entirely, including the differing
"Autre" run; only the other row survives. -/
theorem claim_C4_witness :
    (∀ v ∈ removeNoise semaineRow, v.top ≠ 7)
    ∧ removeNoise semaineRow = [⟨30, 0, 0, "Plat".data⟩] := by
  refine ⟨claim_C4 semaineRow 7 ⟨⟨7, 0, 0, "Semaine 12".data⟩, by decide, rfl, by decide⟩,
    by decide⟩

lemma fromDiv_top (v : Div) : (fromDiv v).top = v.top := rfl

/-- Claim C2: when a run matches a column and its top is within 15 px of the
column's last run's top and its text begins with a lower-case letter, it is
merged into that last run instead of becoming a new entry: the `[start,end]`
envelope widens to the min of starts and max of ends, the top stays the last
run's, and a single separating space is inserted when neither side has
boundary whitespace; when the lower-case/top test fails the run is appended
as a new entry instead. -/
theorem claim_C2 (c : List DishBuilder) (last word : DishBuilder)
    (hlast : c.getLast? = some last) :
    (word.top - last.top ≤ MULTILINE_DISH_MAX_DISTANCE →
      word.text.head?.elim false rustIsLowercase = true →
      columnAdd c word = c.dropLast ++ [addSelf last word]
      ∧ (addSelf last word).start = min last.start word.start
      ∧ (addSelf last word).end_ = max last.end_ word.end_
      ∧ (addSelf last word).top = last.top
      ∧ (endsWithSpace last.text = false → startsWithSpace word.text = false →
          (∀ ch, word.text.head? = some ch → isRustWs ch = false) →
          (addSelf last word).text = last.text ++ ' ' :: word.text))
    ∧ (¬(word.top - last.top ≤ MULTILINE_DISH_MAX_DISTANCE
          ∧ word.text.head?.elim false rustIsLowercase = true) →
      columnAdd c word = c ++ [word]) := by
  constructor
  · intro hnear hlow
    refine ⟨?_, rfl, rfl, rfl, ?_⟩
    · have hcond : (decide (word.top - last.top ≤ MULTILINE_DISH_MAX_DISTANCE)
          && (word.text.head?.elim false rustIsLowercase)) = true := by
        simp only [hlow, Bool.and_true, decide_eq_true_eq]
        exact hnear
      unfold columnAdd
      rw [hlast]
      show (if (decide (word.top - last.top ≤ MULTILINE_DISH_MAX_DISTANCE)
            && (word.text.head?.elim false rustIsLowercase)) = true
          then c.dropLast ++ [addSelf last word] else c ++ [word])
        = c.dropLast ++ [addSelf last word]
      rw [if_pos hcond]
    · intro hends hstarts hch
      cases hwt : word.text with
      | nil => rw [hwt] at hlow; exact absurd hlow (by decide)
      | cons ch rest =>
        have hchws : isRustWs ch = false := hch ch (by rw [hwt]; rfl)
        show (addSelf last word).text = _
        unfold addSelf
        rw [hends, hstarts]
        simp only [Bool.not_false, Bool.and_self, if_true]
        unfold absorbText
        rw [if_pos (by simp [endsWithSpace, List.getLast?_concat])]
        unfold trimStartStr
        rw [hwt, List.dropWhile_cons, hchws]
        simp
  · intro hn
    have hcond : (decide (word.top - last.top ≤ MULTILINE_DISH_MAX_DISTANCE)
        && (word.text.head?.elim false rustIsLowercase)) = false := by
      by_cases hA : word.top - last.top ≤ MULTILINE_DISH_MAX_DISTANCE
      · have hB : word.text.head?.elim false rustIsLowercase = false := by
          cases hB2 : word.text.head?.elim false rustIsLowercase
          · rfl
          · exact absurd ⟨hA, hB2⟩ hn
        simp [hB]
      · simp [hA]
    unfold columnAdd
    rw [hlast]
    show (if (decide (word.top - last.top ≤ MULTILINE_DISH_MAX_DISTANCE)
          && (word.text.head?.elim false rustIsLowercase)) = true
        then c.dropLast ++ [addSelf last word] else c ++ [word])
      = c ++ [word]
    rw [if_neg (by rw [hcond]; exact Bool.false_ne_true)]

/-- Claim C2 witness: "Poulet" at top 100 followed in the same column by
"basquaise" at top 110 merges into a single "Poulet basquaise" run, while a
following capitalized "Riz" at top 112 is appended instead of merged. -/
theorem claim_C2_witness :
    columnAdd [runPoulet] runBasquaise = [runPouletBasquaise]
    ∧ runPouletBasquaise.text = "Poulet basquaise".data
    ∧ columnAdd [runPouletBasquaise] runRiz = [runPouletBasquaise, runRiz] := by
  refine ⟨?_, by decide, ?_⟩
  · have h := ((claim_C2 [runPoulet] runPoulet runBasquaise rfl).1
      (by decide) (by decide)).1
    exact h.trans (by decide)
  · have h := (claim_C2 [runPouletBasquaise] runPouletBasquaise runRiz rfl).2
      (by decide)
    exact h.trans (by decide)

/-- Claim C3 fails as stated: the source absorbs on
`run.end.abs_diff(fragment.left) < 12`, not on `fragment.left − run.end`
being below 12.  First input: a fragment overlapping the run
(`left = 5 < end = 24`, so `left − end = −19 < 12` and truncated-to-zero
`left − end = 0 < 12`) is NOT absorbed (two runs result).  Second input: a
fragment with negative gap `left − end = −10` (not a gap lying in `[0, 12)`)
IS absorbed (one run results). -/
theorem claim_C3_counterexample :
    ((⟨0, 0, "Salade".data⟩ : Div).top = (⟨0, 5, "x".data⟩ : Div).top
      ∧ ((5 : Int) - ((fromDiv ⟨0, 0, "Salade".data⟩).end_ : Int) < 12)
      ∧ (wordMerge [⟨0, 0, "Salade".data⟩, ⟨0, 5, "x".data⟩]).length = 2)
    ∧ ((⟨0, 0, "Sal".data⟩ : Div).top = (⟨0, 2, "x".data⟩ : Div).top
      ∧ ¬((0 : Int) ≤ (2 : Int) - ((fromDiv ⟨0, 0, "Sal".data⟩).end_ : Int))
      ∧ (wordMerge [⟨0, 0, "Sal".data⟩, ⟨0, 2, "x".data⟩]).length = 1) := by
  decide

/-- Claim C3 (amended): during the word-merge pass a fragment is absorbed
into the current run if and only if the run exists, has the same top, and
the absolute horizontal distance `|fragment.left − run.end|` is below the
12 px drift threshold; the same-top fragments `{0, "Sal"}` and `{4, "ade"}`
yield the single run "Salade". -/
theorem claim_C3 :
    (∀ d1 d2 : Div, (wordMerge [d1, d2]).length = 1 ↔
      (d1.top = d2.top ∧ absDiff (fromDiv d1).end_ d2.left < 12))
    ∧ wordMerge [⟨0, 0, "Sal".data⟩, ⟨0, 4, "ade".data⟩]
        = [⟨0, 0, 16, "Salade".data⟩] := by
  constructor
  · intro d1 d2
    by_cases htop : d1.top = d2.top
    · by_cases hd : absDiff (fromDiv d1).end_ d2.left < 12
      · have hcond : ((fromDiv d1).top == d2.top
            && decide (absDiff (fromDiv d1).end_ d2.left < 12)) = true := by
          simp [fromDiv_top, htop, hd]
        simp [wordMerge, mergeGo, hcond, fromDiv_top, htop, hd]
      · have hcond : ((fromDiv d1).top == d2.top
            && decide (absDiff (fromDiv d1).end_ d2.left < 12)) = false := by
          simp [hd]
        simp [wordMerge, mergeGo, hcond, fromDiv_top, hd]
    · have hcond : ((fromDiv d1).top == d2.top
          && decide (absDiff (fromDiv d1).end_ d2.left < 12)) = false := by
        simp [fromDiv_top, htop]
      simp [wordMerge, mergeGo, hcond, fromDiv_top, htop]
  · decide

/-- Claim C9: a well-formed raw fragment is kept exactly when it is not in
the red ink class, its top lies in the half-open band `[120, 525)`, and its
top lies in none of the category bands registered for the page geometry
(with the first registered profile's bands used when the geometry matches no
profile); survivors are sorted ascending by `(top, left)`. -/
theorem claim_C9 (dims : DocumentDimensions) (frags : List RawDiv) :
    List.Sorted divLe (fragmentStage dims frags)
    ∧ (fragmentStage dims frags).Perm ((frags.filter (keepFragment dims)).map toDiv)
    ∧ (∀ f : RawDiv, keepFragment dims f = true ↔
        (f.red = false ∧ 120 ≤ f.top ∧ f.top < 525
          ∧ ∀ r ∈ categoriesArea dims, ¬(r.lo ≤ f.top ∧ f.top < r.hi)))
    ∧ ((∀ p ∈ CATEGORIES_AREAS, p.1 ≠ dims) → categoriesArea dims = bands792x612) := by
  refine ⟨List.sorted_insertionSort divLe _, List.perm_insertionSort divLe _, ?_, ?_⟩
  · intro f
    unfold keepFragment
    constructor
    · intro h
      have h1 := (Bool.and_eq_true _ _).mp h
      have h2 := (Bool.and_eq_true _ _).mp h1.1
      have hred : f.red = false := by simpa using h2.1
      have hmain : 120 ≤ f.top ∧ f.top < 525 := by
        have := h2.2
        simp only [RangeN.containsN, MAIN_CONTENT_AREA, Bool.and_eq_true,
          decide_eq_true_eq] at this
        exact this
      have hany : (categoriesArea dims).any (fun r => r.containsN f.top) = false := by
        simpa using h1.2
      refine ⟨hred, hmain.1, hmain.2, ?_⟩
      intro r hr hcon
      have h4 := List.any_eq_false.mp hany r hr
      apply h4
      simp [RangeN.containsN, hcon.1, hcon.2]
    · rintro ⟨hred, hlo, hhi, hcat⟩
      have hA : (!f.red) = true := by simp [hred]
      have hB : RangeN.containsN MAIN_CONTENT_AREA f.top = true := by
        simp [RangeN.containsN, MAIN_CONTENT_AREA, hlo, hhi]
      have hC : ((categoriesArea dims).any (fun r => r.containsN f.top)) = false := by
        rw [List.any_eq_false]
        intro r hr hcon
        simp only [RangeN.containsN, Bool.and_eq_true, decide_eq_true_eq] at hcon
        exact hcat r hr hcon
      rw [hA, hB, hC]
      rfl
  · intro hnone
    have hfind : CATEGORIES_AREAS.find? (fun p => decide (p.1 = dims)) = none := by
      rw [List.find?_eq_none]
      intro p hp
      simp [hnone p hp]
    unfold categoriesArea
    rw [hfind]
    rfl

/-- Claim C9 witness: with an unregistered geometry the fallback bands are
the first profile's; a non-red in-band fragment is kept while red,
out-of-band, and category-band fragments are dropped. -/
theorem claim_C9_witness :
    categoriesArea dimsFix = bands792x612
    ∧ List.Sorted divLe (fragmentStage dimsFix soupeFrags)
    ∧ keepFragment dimsFix ⟨170, 40, "x".data, false⟩ = true
    ∧ keepFragment dimsFix ⟨170, 40, "x".data, true⟩ = false
    ∧ keepFragment dimsFix ⟨50, 40, "x".data, false⟩ = false
    ∧ keepFragment dimsFix ⟨140, 40, "x".data, false⟩ = false := by
  refine ⟨(claim_C9 dimsFix soupeFrags).2.2.2 (by decide),
    (claim_C9 dimsFix soupeFrags).1, by decide, by decide, by decide, by decide⟩

lemma foldl_minBy_mem {α : Type} (key : α → Nat) :
    ∀ (xs : List α) (a : α),
      xs.foldl (fun acc y => if key y < key acc then y else acc) a ∈ a :: xs
  | [], a => List.mem_singleton.mpr rfl
  | x :: xs, a => by
    simp only [List.foldl_cons]
    by_cases h : key x < key a
    · rw [if_pos h]
      rcases List.mem_cons.mp (foldl_minBy_mem key xs x) with h1 | h1
      · rw [h1]
        exact List.mem_cons_of_mem a (List.mem_cons_self x xs)
      · exact List.mem_cons_of_mem a (List.mem_cons_of_mem x h1)
    · rw [if_neg h]
      rcases List.mem_cons.mp (foldl_minBy_mem key xs a) with h1 | h1
      · rw [h1]
        exact List.mem_cons_self a _
      · exact List.mem_cons_of_mem a (List.mem_cons_of_mem x h1)

lemma foldl_minBy_le {α : Type} (key : α → Nat) :
    ∀ (xs : List α) (a : α) (y : α), y ∈ a :: xs →
      key (xs.foldl (fun acc z => if key z < key acc then z else acc) a) ≤ key y
  | [], a, y, hy => by
    rcases List.mem_singleton.mp hy with rfl
    exact le_refl _
  | x :: xs, a, y, hy => by
    simp only [List.foldl_cons]
    by_cases h : key x < key a
    · rw [if_pos h]
      rcases List.mem_cons.mp hy with h1 | hy2
      · rw [h1]
        exact le_trans (foldl_minBy_le key xs x x (List.mem_cons_self x xs)) (le_of_lt h)
      · exact foldl_minBy_le key xs x y hy2
    · rw [if_neg h]
      rcases List.mem_cons.mp hy with h1 | hy2
      · rw [h1]
        exact foldl_minBy_le key xs a a (List.mem_cons_self a xs)
      · rcases List.mem_cons.mp hy2 with h3 | hy3
        · rw [h3]
          exact le_trans (foldl_minBy_le key xs a a (List.mem_cons_self a xs))
            (le_of_not_lt h)
        · exact foldl_minBy_le key xs a y (List.mem_cons_of_mem a hy3)

lemma minByKeyFirst_spec {α : Type} (key : α → Nat) (l : List α) (x : α)
    (h : minByKeyFirst key l = some x) : x ∈ l ∧ ∀ y ∈ l, key x ≤ key y := by
  cases l with
  | nil => cases h
  | cons a xs =>
    have hx : x = xs.foldl (fun acc z => if key z < key acc then z else acc) a := by
      unfold minByKeyFirst at h
      injection h with h
      exact h.symm
    subst hx
    exact ⟨foldl_minBy_mem key xs a, fun y hy => foldl_minBy_le key xs a y hy⟩

lemma minByKeyFirst_none_iff {α : Type} (key : α → Nat) (l : List α) :
    minByKeyFirst key l = none ↔ l = [] := by
  cases l with
  | nil => simp [minByKeyFirst]
  | cons a xs => simp [minByKeyFirst]

lemma fromCalendarDate_fields (y : Int) (m d : Nat) (dt : Date)
    (h : fromCalendarDate y m d = some dt) : dt = ⟨y, m, d⟩ := by
  unfold fromCalendarDate at h
  split at h
  · injection h with h
    exact h.symm
  · cases h

lemma mem_candidateDates (now : Date) (wd day month : Nat) (dt : Date) :
    dt ∈ candidateDates now wd day month ↔
      (dt.year = now.year - 1 ∨ dt.year = now.year ∨ dt.year = now.year + 1)
      ∧ fromCalendarDate dt.year month day = some dt ∧ weekdayNum dt = wd := by
  unfold candidateDates
  rw [List.mem_filterMap]
  constructor
  · rintro ⟨y, hy, hf⟩
    cases hc : fromCalendarDate y month day with
    | none => rw [hc] at hf; cases hf
    | some dt2 =>
      have hf2 : (if (weekdayNum dt2 == wd) = true then some dt2 else none)
          = some dt := by
        rw [hc] at hf
        exact hf
      by_cases hwd : (weekdayNum dt2 == wd) = true
      · rw [if_pos hwd] at hf2
        injection hf2 with hf2
        rw [hf2] at hc hwd
        have hyear : dt.year = y := by
          rw [fromCalendarDate_fields y month day dt hc]
        rw [hyear]
        refine ⟨by simpa using hy, hc, by simpa using hwd⟩
      · rw [if_neg hwd] at hf2
        cases hf2
  · rintro ⟨hy, hf, hwd⟩
    refine ⟨dt.year, by simpa using hy, ?_⟩
    simp [hf, hwd]

/-- Claim C5: for the worded header form, the resolved date is one of the
three candidate years around now, exists in the calendar, falls on the
parsed weekday, and is the nearest such candidate to now; resolution fails
exactly when no candidate survives; and a date is a candidate exactly when
its year is in `{year−1, year, year+1}`, the calendar date is constructible,
and its actual weekday equals the parsed one. -/
theorem claim_C5 (now : Date) (wd day month : Nat) :
    (∀ dt, resolveWordedDate now wd day month = some dt →
      dt ∈ candidateDates now wd day month
      ∧ weekdayNum dt = wd
      ∧ (dt.year = now.year - 1 ∨ dt.year = now.year ∨ dt.year = now.year + 1)
      ∧ ∀ dt2 ∈ candidateDates now wd day month,
          dateDistance dt now ≤ dateDistance dt2 now)
    ∧ (resolveWordedDate now wd day month = none ↔
        candidateDates now wd day month = [])
    ∧ (∀ dt, dt ∈ candidateDates now wd day month ↔
        (dt.year = now.year - 1 ∨ dt.year = now.year ∨ dt.year = now.year + 1)
        ∧ fromCalendarDate dt.year month day = some dt ∧ weekdayNum dt = wd) := by
  refine ⟨?_, minByKeyFirst_none_iff _ _, fun dt => mem_candidateDates now wd day month dt⟩
  intro dt h
  have hs := minByKeyFirst_spec _ _ _ h
  have hmem := (mem_candidateDates now wd day month dt).mp hs.1
  exact ⟨hs.1, hmem.2.2, hmem.1, hs.2⟩

/-- Claim C5 witness: "Lundi 13 mars" evaluated at a now of 2024-03-10
resolves to 2023-03-13 (the only one of 2023-03-13 / 2024-03-13 / 2025-03-13
that is a real Monday), a minimal-distance surviving candidate. -/
theorem claim_C5_witness :
    resolveWordedDate nowFix 0 13 3 = some ⟨2023, 3, 13⟩
    ∧ (⟨2023, 3, 13⟩ : Date) ∈ candidateDates nowFix 0 13 3
    ∧ weekdayNum ⟨2023, 3, 13⟩ = 0
    ∧ (∀ dt2 ∈ candidateDates nowFix 0 13 3,
        dateDistance ⟨2023, 3, 13⟩ nowFix ≤ dateDistance dt2 nowFix)
    ∧ dayNew nowFix ["Lundi 13 mars".data, "Riz".data]
        = .ok (some ⟨⟨2023, 3, 13⟩, ["Riz".data]⟩)
    ∧ weekdayNum ⟨2024, 3, 13⟩ ≠ 0 ∧ weekdayNum ⟨2025, 3, 13⟩ ≠ 0 := by
  have h := (claim_C5 nowFix 0 13 3).1 ⟨2023, 3, 13⟩ (by decide)
  exact ⟨by decide, h.1, h.2.1, h.2.2.2, by rfl, by decide, by decide⟩

lemma dayNew_error_eq (now : Date) (fields : List Str) (e : Error)
    (h : dayNew now fields = .error e) : e = .InvalidPdf := by
  unfold dayNew at h
  repeat' split at h
  all_goals first
    | (injection h with h; exact h.symm)
    | cases h

lemma dayNew_ok_none_len (now : Date) (fields : List Str)
    (h : dayNew now fields = .ok none) : fields.length = 1 := by
  unfold dayNew at h
  repeat' split at h
  all_goals first
    | rfl
    | cases h

lemma dayNew_ok_some_len (now : Date) (fields : List Str) (d : DayR)
    (h : dayNew now fields = .ok (some d)) : d.dishes.length + 1 = fields.length := by
  unfold dayNew at h
  repeat' split at h
  all_goals cases h <;> rfl

lemma collectDays_error_of_mem (now : Date) :
    ∀ (cols : List (List Str)) (c : List Str), c ∈ cols →
      (∃ e, dayNew now c = .error e) →
      collectDays now cols = .error .InvalidPdf
  | [], c, hc, _ => absurd hc (List.not_mem_nil c)
  | c0 :: cs, c, hc, hex => by
    rcases hex with ⟨e, he⟩
    cases h0 : dayNew now c0 with
    | error e0 =>
      have h1 : e0 = Error.InvalidPdf := dayNew_error_eq now c0 e0 h0
      simp only [collectDays, h0, h1]
    | ok o =>
      have hcs : c ∈ cs := by
        rcases List.mem_cons.mp hc with h2 | h2
        · rw [h2] at he
          rw [h0] at he
          cases he
        · exact h2
      have IH := collectDays_error_of_mem now cs c hcs ⟨e, he⟩
      cases o with
      | none =>
        simp only [collectDays, h0]
        exact IH
      | some d =>
        simp only [collectDays, h0, IH]

lemma collectDays_ok_spec (now : Date) :
    ∀ (cols : List (List Str)) (days : List DayR),
      (∀ c ∈ cols, 2 ≤ c.length) →
      collectDays now cols = .ok days →
      days.length = cols.length ∧ ∀ d ∈ days, 1 ≤ d.dishes.length
  | [], days, _, h => by
    simp only [collectDays] at h
    injection h with h
    rw [← h]
    exact ⟨rfl, by intro d hd; cases hd⟩
  | c0 :: cs, days, hall, h => by
    cases h0 : dayNew now c0 with
    | error e0 =>
      rw [collectDays, h0] at h
      cases h
    | ok o =>
      cases o with
      | none =>
        have hlen := dayNew_ok_none_len now c0 h0
        have := hall c0 (List.mem_cons_self c0 cs)
        omega
      | some d =>
        rw [collectDays, h0] at h
        cases hcs : collectDays now cs with
        | error e1 =>
          rw [hcs] at h
          cases h
        | ok ds =>
          rw [hcs] at h
          injection h with h
          have IH := collectDays_ok_spec now cs ds
            (fun c2 hc2 => hall c2 (List.mem_cons_of_mem c0 hc2)) hcs
          have hd : d.dishes.length + 1 = c0.length := dayNew_ok_some_len now c0 d h0
          have hc0 := hall c0 (List.mem_cons_self c0 cs)
          rw [← h]
          constructor
          · simp [IH.1]
          · intro d2 hd2
            rcases List.mem_cons.mp hd2 with h3 | h3
            · rw [h3]; omega
            · exact IH.2 d2 h3

/-- Claim C6: over the surviving columns (each with at least 2 runs), the
terminal mapping is all-or-nothing: if any column's header fails date
resolution the whole result is the single `InvalidPdf` failure, and a
successful result contains exactly one `Day` per surviving column. -/
theorem claim_C6 (now : Date) (cols : List (List Str))
    (hall : ∀ c ∈ cols, 2 ≤ c.length) :
    ((∃ c ∈ cols, ∃ e, dayNew now c = .error e) →
      collectDays now cols = .error .InvalidPdf)
    ∧ (∀ days, collectDays now cols = .ok days →
        days.length = cols.length ∧ ∀ d ∈ days, 1 ≤ d.dishes.length) := by
  constructor
  · rintro ⟨c, hc, he⟩
    exact collectDays_error_of_mem now cols c hc he
  · intro days h
    exact collectDays_ok_spec now cols days hall h

/-- Claim C6 witness: a column set with an unparsable header yields the
`InvalidPdf` failure; a column set whose headers all resolve yields exactly
one `Day` per column. -/
theorem claim_C6_witness :
    collectDays nowFix badCols = .error .InvalidPdf
    ∧ collectDays nowFix goodCols = .ok [soupeDay]
    ∧ [soupeDay].length = goodCols.length
    ∧ ∀ d ∈ [soupeDay], 1 ≤ d.dishes.length := by
  have hgood : collectDays nowFix goodCols = .ok [soupeDay] := by rfl
  have h2 := (claim_C6 nowFix goodCols (by decide)).2 [soupeDay] hgood
  refine ⟨?_, hgood, h2.1, h2.2⟩
  exact (claim_C6 nowFix badCols (by decide)).1
    ⟨["bad header x".data, "y".data], by decide, Error.InvalidPdf, by rfl⟩

/-- Claim C7: an input with zero fragments fails with `InvalidPdf` (after
deduplication every column with fewer than 2 runs is dropped and an empty
column set is rejected), and every `Day` of a successful parse has at least
one dish besides its date header. -/
theorem claim_C7 (now : Date) (dims : DocumentDimensions) :
    parsePdf now dims [] = .error .InvalidPdf
    ∧ (∀ frags days, parsePdf now dims frags = .ok days →
        ∀ d ∈ days, 1 ≤ d.dishes.length) := by
  constructor
  · rfl
  · intro frags days h
    simp only [parsePdf] at h
    split at h
    · cases h
    · refine (collectDays_ok_spec now _ days ?_ h).2
      intro c hc
      rcases List.mem_map.mp hc with ⟨c0, hc0, hmap⟩
      rw [← hmap, List.length_map]
      exact of_decide_eq_true (List.mem_filter.mp hc0).2

/-- Claim C7 witness: the empty input fails with `InvalidPdf`; a concrete
two-fragment input parses into one `Day` whose dish list is non-empty. -/
theorem claim_C7_witness :
    parsePdf nowFix dimsFix [] = .error .InvalidPdf
    ∧ parsePdf nowFix dimsFix soupeFrags = .ok [soupeDay]
    ∧ ∀ d ∈ [soupeDay], 1 ≤ d.dishes.length := by
  refine ⟨(claim_C7 nowFix dimsFix).1, by rfl, ?_⟩
  exact (claim_C7 nowFix dimsFix).2 soupeFrags [soupeDay] (by rfl)

lemma fragmentStage_tops (dims : DocumentDimensions) (frags : List RawDiv) :
    (fragmentStage dims frags).Pairwise divTopLe := by
  have hs : List.Sorted divLe (fragmentStage dims frags) :=
    List.sorted_insertionSort divLe _
  exact hs.imp (fun {a b} hab => by unfold divLe at hab; unfold divTopLe; omega)

lemma mergeGo_tops :
    ∀ (ds : List Div) (cur : DishBuilder),
      (∀ d ∈ ds, cur.top ≤ d.top) → ds.Pairwise divTopLe →
      (mergeGo cur ds).Pairwise dbTopLe ∧ ∀ r ∈ mergeGo cur ds, cur.top ≤ r.top
  | [], cur, _, _ => by
    constructor
    · exact List.pairwise_singleton _ _
    · intro r hr
      rcases List.mem_singleton.mp hr with rfl
      exact le_refl _
  | d :: ds, cur, h1, h2 => by
    rw [mergeGo]
    by_cases hcond : (cur.top == d.top && decide (absDiff cur.end_ d.left < 12)) = true
    · rw [if_pos hcond]
      have h1n : ∀ d2 ∈ ds, (addDiv cur d).top ≤ d2.top := by
        intro d2 hd2
        exact h1 d2 (List.mem_cons_of_mem d hd2)
      have IH := mergeGo_tops ds (addDiv cur d) h1n (List.pairwise_cons.mp h2).2
      exact ⟨IH.1, fun r hr => IH.2 r hr⟩
    · rw [if_neg hcond]
      have h1n : ∀ d2 ∈ ds, (fromDiv d).top ≤ d2.top := by
        intro d2 hd2
        exact (List.pairwise_cons.mp h2).1 d2 hd2
      have IH := mergeGo_tops ds (fromDiv d) h1n (List.pairwise_cons.mp h2).2
      have hcd : cur.top ≤ d.top := h1 d (List.mem_cons_self d ds)
      constructor
      · rw [List.pairwise_cons]
        refine ⟨?_, IH.1⟩
        intro r hr
        show (trimDB cur).top ≤ r.top
        exact le_trans hcd (IH.2 r hr)
      · intro r hr
        rcases List.mem_cons.mp hr with h3 | h3
        · rw [h3]
          exact le_refl _
        · exact le_trans hcd (IH.2 r h3)

lemma wordMerge_tops (ds : List Div) (h : ds.Pairwise divTopLe) :
    (wordMerge ds).Pairwise dbTopLe := by
  cases ds with
  | nil => exact List.Pairwise.nil
  | cons d ds =>
    exact (mergeGo_tops ds (fromDiv d)
      (fun d2 hd2 => (List.pairwise_cons.mp h).1 d2 hd2)
      (List.pairwise_cons.mp h).2).1

lemma removeNoise_tops (words : List DishBuilder) (h : words.Pairwise dbTopLe) :
    (removeNoise words).Pairwise dbTopLe :=
  h.sublist (List.filter_sublist words)

lemma columnAdd_ne_nil (c : List DishBuilder) (w : DishBuilder) :
    columnAdd c w ≠ [] := by
  unfold columnAdd
  cases hg : c.getLast? with
  | none => simp
  | some last =>
    show (if (decide (w.top - last.top ≤ MULTILINE_DISH_MAX_DISTANCE)
        && (w.text.head?.elim false rustIsLowercase)) = true
      then c.dropLast ++ [addSelf last w] else c ++ [w]) ≠ []
    by_cases hcond : (decide (w.top - last.top ≤ MULTILINE_DISH_MAX_DISTANCE)
        && (w.text.head?.elim false rustIsLowercase)) = true
    · rw [if_pos hcond]
      simp
    · rw [if_neg hcond]
      simp

lemma columnAdd_mem_top (c : List DishBuilder) (w r : DishBuilder)
    (hr : r ∈ columnAdd c w) : (∃ r0 ∈ c, r.top = r0.top) ∨ r = w := by
  unfold columnAdd at hr
  cases hg : c.getLast? with
  | none =>
    rw [hg] at hr
    rcases List.mem_singleton.mp hr with rfl
    exact Or.inr rfl
  | some last =>
    rw [hg] at hr
    have hr2 : r ∈ (if (decide (w.top - last.top ≤ MULTILINE_DISH_MAX_DISTANCE)
        && (w.text.head?.elim false rustIsLowercase)) = true
      then c.dropLast ++ [addSelf last w] else c ++ [w]) := hr
    have hlastmem : last ∈ c := List.mem_of_mem_getLast? hg
    by_cases hcond : (decide (w.top - last.top ≤ MULTILINE_DISH_MAX_DISTANCE)
        && (w.text.head?.elim false rustIsLowercase)) = true
    · rw [if_pos hcond] at hr2
      rcases List.mem_append.mp hr2 with h1 | h1
      · exact Or.inl ⟨r, (List.dropLast_sublist c).subset h1, rfl⟩
      · rcases List.mem_singleton.mp h1 with rfl
        exact Or.inl ⟨last, hlastmem, rfl⟩
    · rw [if_neg hcond] at hr2
      rcases List.mem_append.mp hr2 with h1 | h1
      · exact Or.inl ⟨r, h1, rfl⟩
      · rcases List.mem_singleton.mp h1 with rfl
        exact Or.inr rfl

lemma addToColumns_ne_nil (w : DishBuilder) :
    ∀ cols : List (List DishBuilder), (∀ c ∈ cols, c ≠ []) →
      ∀ c2 ∈ addToColumns w cols, c2 ≠ []
  | [], _, c2, hc2 => by
    rcases List.mem_singleton.mp hc2 with rfl
    simp
  | c :: cs, h, c2, hc2 => by
    unfold addToColumns at hc2
    by_cases hm : columnMatches w c = true
    · rw [if_pos hm] at hc2
      rcases List.mem_cons.mp hc2 with h2 | h2
      · rw [h2]
        exact columnAdd_ne_nil c w
      · exact h c2 (List.mem_cons_of_mem c h2)
    · rw [if_neg hm] at hc2
      rcases List.mem_cons.mp hc2 with h2 | h2
      · rw [h2]
        exact h c (List.mem_cons_self c cs)
      · exact addToColumns_ne_nil w cs
          (fun c3 hc3 => h c3 (List.mem_cons_of_mem c hc3)) c2 h2

lemma addToColumns_mem_top (w : DishBuilder) :
    ∀ cols : List (List DishBuilder), ∀ c2 ∈ addToColumns w cols, ∀ r ∈ c2,
      (∃ c ∈ cols, ∃ r0 ∈ c, r.top = r0.top) ∨ r = w
  | [], c2, hc2, r, hr => by
    rcases List.mem_singleton.mp hc2 with rfl
    rcases List.mem_singleton.mp hr with rfl
    exact Or.inr rfl
  | c :: cs, c2, hc2, r, hr => by
    unfold addToColumns at hc2
    by_cases hm : columnMatches w c = true
    · rw [if_pos hm] at hc2
      rcases List.mem_cons.mp hc2 with h2 | h2
      · rw [h2] at hr
        rcases columnAdd_mem_top c w r hr with ⟨r0, hr0, ht⟩ | h3
        · exact Or.inl ⟨c, List.mem_cons_self c cs, r0, hr0, ht⟩
        · exact Or.inr h3
      · exact Or.inl ⟨c2, List.mem_cons_of_mem c h2, r, hr, rfl⟩
    · rw [if_neg hm] at hc2
      rcases List.mem_cons.mp hc2 with h2 | h2
      · rw [h2] at hr
        exact Or.inl ⟨c, List.mem_cons_self c cs, r, hr, rfl⟩
      · rcases addToColumns_mem_top w cs c2 h2 r hr with ⟨c3, hc3, r0, hr0, ht⟩ | h3
        · exact Or.inl ⟨c3, List.mem_cons_of_mem c hc3, r0, hr0, ht⟩
        · exact Or.inr h3

lemma addToColumnsChecked_eq (w : DishBuilder) :
    ∀ cols : List (List DishBuilder),
      (∀ c ∈ cols, c ≠ [] ∧ ∀ r ∈ c, r.top ≤ w.top) →
      addToColumnsChecked w cols = some (addToColumns w cols)
  | [], _ => rfl
  | c :: cs, h => by
    by_cases hm : columnMatches w c = true
    · have hc := h c (List.mem_cons_self c cs)
      cases hg : c.getLast? with
      | none => exact absurd (List.getLast?_eq_none_iff.mp hg) hc.1
      | some last =>
        have hle : last.top ≤ w.top := hc.2 last (List.mem_of_mem_getLast? hg)
        have h1 : columnAddChecked c w = some (columnAdd c w) := by
          unfold columnAddChecked
          rw [hg]
          show (if w.top < last.top then none else some (columnAdd c w))
            = some (columnAdd c w)
          rw [if_neg (by omega)]
        simp [addToColumnsChecked, addToColumns, hm, h1]
    · have hmf : columnMatches w c = false := by
        cases hb : columnMatches w c
        · rfl
        · exact absurd hb hm
      have IH := addToColumnsChecked_eq w cs
        (fun c2 hc2 => h c2 (List.mem_cons_of_mem c hc2))
      simp [addToColumnsChecked, addToColumns, hmf, IH]

lemma buildColumnsCheckedGo_eq :
    ∀ (ws : List DishBuilder) (cols : List (List DishBuilder)),
      ws.Pairwise dbTopLe →
      (∀ c ∈ cols, c ≠ [] ∧ ∀ r ∈ c, ∀ v ∈ ws, r.top ≤ v.top) →
      buildColumnsCheckedGo cols ws = some (buildColumnsGo cols ws)
  | [], cols, _, _ => rfl
  | w :: ws, cols, hws, hcols => by
    have hstep : addToColumnsChecked w cols = some (addToColumns w cols) := by
      apply addToColumnsChecked_eq
      intro c hc
      exact ⟨(hcols c hc).1,
        fun r hr => (hcols c hc).2 r hr w (List.mem_cons_self w ws)⟩
    have hnext : ∀ c2 ∈ addToColumns w cols,
        c2 ≠ [] ∧ ∀ r ∈ c2, ∀ v ∈ ws, r.top ≤ v.top := by
      intro c2 hc2
      constructor
      · exact addToColumns_ne_nil w cols (fun c hc => (hcols c hc).1) c2 hc2
      · intro r hr v hv
        rcases addToColumns_mem_top w cols c2 hc2 r hr with ⟨c3, hc3, r0, hr0, ht⟩ | h3
        · rw [ht]
          exact (hcols c3 hc3).2 r0 hr0 v (List.mem_cons_of_mem w hv)
        · rw [h3]
          exact (List.pairwise_cons.mp hws).1 v hv
    rw [buildColumnsCheckedGo, hstep, buildColumnsGo]
    exact buildColumnsCheckedGo_eq ws (addToColumns w cols)
      (List.pairwise_cons.mp hws).2 hnext

/-- Claim C10: on the runs actually produced by the earlier pipeline stages
(fragments filtered, sorted by `(top, left)`, merged into runs, noise rows
removed), the column-clustering pass is total: the checked variant — which
signals `none` whenever `column.last().unwrap()` would panic or the `u32`
subtraction `word.top - last.top` would underflow — always succeeds and
agrees with the pass as implemented, because tops are nondecreasing and a
multiline merge never changes the stored run's top. -/
theorem claim_C10 (dims : DocumentDimensions) (frags : List RawDiv) :
    buildColumnsChecked (removeNoise (wordMerge (fragmentStage dims frags)))
      = some (buildColumns (removeNoise (wordMerge (fragmentStage dims frags)))) := by
  apply buildColumnsCheckedGo_eq
  · exact removeNoise_tops _ (wordMerge_tops _ (fragmentStage_tops dims frags))
  · intro c hc
    exact absurd hc (List.not_mem_nil c)
